import Mathlib

/-!
Verification of the natural-language todo command router
(`backend/src/services/ai_chat_service.py`): the intent classifier, the
slot extractors, and the command dispatcher with its conversation log.
Strings are embedded as `List Char`; Python's `in` (substring test),
`str.replace` (left-to-right non-overlapping replacement of every
occurrence) and `str.strip` are given explicit executable definitions.
The external Todo/Conversation/Message stores and the AI completion
client are not part of the repository's files; they are modelled from
the spec's interface section and marked as such.
-/

namespace AIChat

/-- Python strings, embedded as lists of characters. -/
abbrev Str := List Char

/-- Python `str.lower`, restricted to the ASCII case mapping the inputs use. -/
def lowerL (s : Str) : Str := s.map Char.toLower

/-- `pat` is a prefix of `s` (Python slice comparison). -/
def startsWith : Str → Str → Bool
  | [], _ => true
  | _ :: _, [] => false
  | a :: as, b :: bs => a == b && startsWith as bs

/-- Python `pat in s`: `pat` occurs in `s` as a contiguous substring. -/
def containsSub (pat : Str) : Str → Bool
  | [] => startsWith pat []
  | c :: rest => startsWith pat (c :: rest) || containsSub pat rest

/-- Auxiliary scanner for `replaceAll`: while `skip > 0` the characters of an
already-matched occurrence are consumed without being emitted; at `skip = 0`
an occurrence of `pat` starting at the current position is elided (its first
character now, the remaining `pat.length - 1` via `skip`), otherwise the
character is kept. This is Python's left-to-right, non-overlapping scan. -/
def replAux (pat : Str) : Nat → Str → Str
  | _ + 1, [] => []
  | k + 1, _ :: rest => replAux pat k rest
  | 0, [] => []
  | 0, c :: rest =>
    if startsWith pat (c :: rest) && pat.length != 0 then
      replAux pat (pat.length - 1) rest
    else
      c :: replAux pat 0 rest

/-- Python `s.replace(pat, "")`: delete every (non-overlapping, leftmost-first)
occurrence of `pat` in `s`. -/
def replaceAll (pat s : Str) : Str := replAux pat 0 s

/-- The characters Python `str.strip()` removes. -/
def isPySpace (c : Char) : Bool :=
  c == ' ' || c == '\t' || c == '\n' || c == '\r' || c == '\x0b' || c == '\x0c'

/-- Python `str.strip()`: drop leading and trailing whitespace. -/
def stripL (s : Str) : Str :=
  ((s.dropWhile isPySpace).reverse.dropWhile isPySpace).reverse

/-- The six intents `_determine_intent` can return. -/
inductive Intent
  | add
  | list
  | complete
  | delete
  | update
  | other
deriving DecidableEq, Repr

def addKeywords : List Str :=
  ["add", "create", "new", "make", "remember", "remind"].map String.toList

def listKeywords : List Str :=
  ["list", "show", "see", "view", "display", "all", "my"].map String.toList

def completeKeywords : List Str :=
  ["complete", "done", "finish", "mark", "as done", "check"].map String.toList

def deleteKeywords : List Str :=
  ["delete", "remove", "cancel", "erase", "get rid of"].map String.toList

def updateKeywords : List Str :=
  ["update", "change", "modify", "edit", "rename", "fix"].map String.toList

/-- `any(keyword in user_input for keyword in kws)`. -/
def anyKeyword (kws : List Str) (s : Str) : Bool :=
  kws.any fun k => containsSub k s

/-- Embeds `_determine_intent` (ai_chat_service.py lines 129-160): lowercase
the input, then test the five keyword sets in the fixed order add, list,
complete, delete, update; the first set with a matching substring wins,
otherwise `other`. -/
def determineIntent (userInput : Str) : Intent :=
  let s := lowerL userInput
  if anyKeyword addKeywords s then Intent.add
  else if anyKeyword listKeywords s then Intent.list
  else if anyKeyword completeKeywords s then Intent.complete
  else if anyKeyword deleteKeywords s then Intent.delete
  else if anyKeyword updateKeywords s then Intent.update
  else Intent.other

/-- Reference classifier written from the claim's words: lowercase the input
and test substring membership of the five fixed keyword sets in the fixed
priority order Add, List, Complete, Delete, Update, returning the first set
with a matching keyword substring, and `other` when no keyword occurs. -/
def classifyRef (text : Str) : Intent :=
  let s := lowerL text
  if addKeywords.any (fun k => containsSub k s) then Intent.add
  else if listKeywords.any (fun k => containsSub k s) then Intent.list
  else if completeKeywords.any (fun k => containsSub k s) then Intent.complete
  else if deleteKeywords.any (fun k => containsSub k s) then Intent.delete
  else if updateKeywords.any (fun k => containsSub k s) then Intent.update
  else Intent.other

/-- The filler tokens `_extract_todo_info` removes, in the code's order. -/
def fillerTokens : List Str :=
  ["add", "create", "new", "remember", "remind", "me", "to"].map String.toList

/-- Embeds the title component of `_extract_todo_info` (lines 162-180):
lowercase the input, then for each filler token in order replace every
occurrence of it by nothing and strip; finally strip once more. -/
def extractTitle (userInput : Str) : Str :=
  stripL (fillerTokens.foldl (fun s p => stripL (replaceAll p s)) (lowerL userInput))

/-- Reference title extractor written from the claim's words: lowercase the
text, then remove every occurrence of each filler token in the fixed order
add, create, new, remember, remind, me, to — as a substring anywhere in the
text — trimming leading and trailing whitespace after each removal; the
remaining text is the title. -/
def extractTitleRef (text : Str) : Str :=
  stripL (replaceAll "to".toList
    (stripL (replaceAll "me".toList
      (stripL (replaceAll "remind".toList
        (stripL (replaceAll "remember".toList
          (stripL (replaceAll "new".toList
            (stripL (replaceAll "create".toList
              (stripL (replaceAll "add".toList (lowerL text))))))))))))))

/-! ### Data model

The spec's data model: messages with a `user`/`assistant` role inside
conversations, and todos with a completion flag, all owned by one user (every
operation of the service is scoped to the authenticated user, so the state
holds that one user's rows). -/

/-- A message's role (the code uses the strings "user" and "assistant"). -/
inductive Role
  | user
  | assistant
deriving DecidableEq, Repr

/-- A Message row: role and content, in insertion order inside its
conversation. -/
structure Msg where
  role : Role
  content : Str
deriving DecidableEq, Repr

/-- A Conversation row: id and its messages in insertion order. -/
structure Conv where
  id : Nat
  msgs : List Msg
deriving DecidableEq, Repr

/-- A Todo row: id, title, description and completion flag. -/
structure Todo where
  id : Nat
  title : Str
  description : Str
  is_completed : Bool
deriving DecidableEq, Repr

/-- The state of the external stores for one user: conversations and todos in
creation order (oldest first), a fresh-id counter, and the AI completion
model as a function from (role-tagged history, live message) to the reply
text. -/
structure StoreState where
  convs : List Conv
  todos : List Todo
  nextId : Nat
  aiReply : List Msg → Str → Str

/-- The service interface the dispatcher calls, each operation returning a
result or an exception detail (`Except`) together with the possibly mutated
state — exceptions do not roll state back, matching the spec's "no partial
rollback". -/
structure Env where
  listConvs : StoreState → Except Str (List Nat) × StoreState
  createConv : StoreState → Except Str Nat × StoreState
  appendMsg : Nat → Role → Str → StoreState → Except Str Unit × StoreState
  listMsgs : Nat → StoreState → Except Str (List Msg) × StoreState
  listTodos : Option Bool → Nat → StoreState → Except Str (List Todo) × StoreState
  createTodo : Str → Str → Bool → StoreState → Except Str Todo × StoreState
  toggleTodo : Nat → StoreState → Except Str Todo × StoreState
  deleteTodo : Nat → StoreState → Except Str Bool × StoreState
  updateTodoTitle : Nat → Str → StoreState → Except Str Todo × StoreState
  aiComplete : List Msg → Str → StoreState → Except Str Str × StoreState

/-- The last `n` elements of a list, in order. -/
def lastN (n : Nat) (l : List α) : List α := l.drop (l.length - n)

/-- Append a message to the first conversation with the given id. -/
def appendToConv (cid : Nat) (m : Msg) : List Conv → List Conv
  | [] => []
  | c :: rest =>
    if c.id = cid then { c with msgs := c.msgs ++ [m] } :: rest
    else c :: appendToConv cid m rest

/-- The first conversation with the given id. -/
def findConv (cid : Nat) : List Conv → Option Conv
  | [] => none
  | c :: rest => if c.id = cid then some c else findConv cid rest

/-- The first todo with the given id. -/
def findTodo (tid : Nat) : List Todo → Option Todo
  | [] => none
  | t :: rest => if t.id = tid then some t else findTodo tid rest

/-- Toggle the completion flag of the first todo with the given id. -/
def toggleInList (tid : Nat) : List Todo → List Todo
  | [] => []
  | t :: rest =>
    if t.id = tid then { t with is_completed := !t.is_completed } :: rest
    else t :: toggleInList tid rest

/-- Remove the first todo with the given id. -/
def removeTodo (tid : Nat) : List Todo → List Todo
  | [] => []
  | t :: rest => if t.id = tid then rest else t :: removeTodo tid rest

/-- Set the title of the first todo with the given id. -/
def setTitleInList (tid : Nat) (newTitle : Str) : List Todo → List Todo
  | [] => []
  | t :: rest =>
    if t.id = tid then { t with title := newTitle } :: rest
    else t :: setTitleInList tid newTitle rest

/-- Does a todo pass the handler's completion filter (`None` = no filter)? -/
def todoMatchesFilter (f : Option Bool) (t : Todo) : Bool :=
  match f with
  | none => true
  | some b => t.is_completed == b

/-- Modelled from the spec: Conversation Store `list_recent(owner, page,
limit) -> (conversations, total)` — newest first; the dispatcher always calls
it with page=1 and limit=1, so this models that call, returning the id of the
most recent conversation when one exists. -/
def specListConvs (st : StoreState) : Except Str (List Nat) × StoreState :=
  (Except.ok ((st.convs.reverse.take 1).map Conv.id), st)

/-- Modelled from the spec: Conversation Store `create(owner) ->
conversation` — a new empty conversation with a fresh id. -/
def specCreateConv (st : StoreState) : Except Str Nat × StoreState :=
  (Except.ok st.nextId,
   { st with convs := st.convs ++ [⟨st.nextId, []⟩], nextId := st.nextId + 1 })

/-- Modelled from the spec: Message Store `append(conversation, role,
content) -> message` — append the message to the conversation. -/
def specAppendMsg (cid : Nat) (r : Role) (content : Str) (st : StoreState) :
    Except Str Unit × StoreState :=
  (Except.ok (), { st with convs := appendToConv cid ⟨r, content⟩ st.convs })

/-- Modelled from the spec: Message Store `list(conversation, owner, page,
limit) -> (messages, total)` — the dispatcher always calls it with page=1 and
limit=10, and per the spec the call yields "the last 10 messages of the
active conversation" with roles preserved in order. -/
def specListMsgs (cid : Nat) (st : StoreState) :
    Except Str (List Msg) × StoreState :=
  (Except.ok (match findConv cid st.convs with
    | some c => lastN 10 c.msgs
    | none => []), st)

/-- Modelled from the spec: Todo Store `list(owner, completed?, page, limit)
-> (items, total)` — the items matching the filter, newest first, at most
`limit` of them (the dispatcher only ever asks for page 1). -/
def specListTodos (f : Option Bool) (limit : Nat) (st : StoreState) :
    Except Str (List Todo) × StoreState :=
  (Except.ok (((st.todos.filter (todoMatchesFilter f)).reverse).take limit), st)

/-- Modelled from the spec: Todo Store `create(owner, title, description,
completed=false) -> item`. -/
def specCreateTodo (title description : Str) (completed : Bool)
    (st : StoreState) : Except Str Todo × StoreState :=
  let t : Todo := ⟨st.nextId, title, description, completed⟩
  (Except.ok t, { st with todos := st.todos ++ [t], nextId := st.nextId + 1 })

/-- Modelled from the spec: Todo Store `toggle_completion(id, owner) -> item,
fails NotFound` — flip the flag and return the updated item. -/
def specToggleTodo (tid : Nat) (st : StoreState) :
    Except Str Todo × StoreState :=
  match findTodo tid st.todos with
  | some t =>
    (Except.ok { t with is_completed := !t.is_completed },
     { st with todos := toggleInList tid st.todos })
  | none => (Except.error "Todo not found".toList, st)

/-- Modelled from the spec: Todo Store `delete(id, owner) -> bool` — whether
a row with that id existed and was removed. -/
def specDeleteTodo (tid : Nat) (st : StoreState) :
    Except Str Bool × StoreState :=
  (Except.ok (findTodo tid st.todos).isSome,
   { st with todos := removeTodo tid st.todos })

/-- Modelled from the spec: Todo Store `update(id, owner, fields) -> item,
fails NotFound` — here only the title field is ever updated. -/
def specUpdateTodo (tid : Nat) (newTitle : Str) (st : StoreState) :
    Except Str Todo × StoreState :=
  match findTodo tid st.todos with
  | some t =>
    (Except.ok { t with title := newTitle },
     { st with todos := setTitleInList tid newTitle st.todos })
  | none => (Except.error "Todo not found".toList, st)

/-- Modelled from the spec: AI Completion Client `complete(history,
next_input) -> text`, a stateless request/response completion — the model
itself is the state's `aiReply` function. -/
def specAiComplete (hist : List Msg) (live : Str) (st : StoreState) :
    Except Str Str × StoreState :=
  (Except.ok (st.aiReply hist live), st)

/-- The service environment with every operation behaving as the spec's
interface section describes (and never failing). -/
def specEnv : Env where
  listConvs := specListConvs
  createConv := specCreateConv
  appendMsg := specAppendMsg
  listMsgs := specListMsgs
  listTodos := specListTodos
  createTodo := specCreateTodo
  toggleTodo := specToggleTodo
  deleteTodo := specDeleteTodo
  updateTodoTitle := specUpdateTodo
  aiComplete := specAiComplete

/-! ### The dispatcher and its handlers, translated from the source -/

/-- The apologetic error string of the except blocks (lines 75, 122, 386):
`"I'm sorry, I encountered an error processing your request: " + str(e)`. -/
def errorReply (e : Str) : Str :=
  "I'm sorry, I encountered an error processing your request: ".toList ++ e

/-- Embeds `_extract_todo_id` (lines 182-199): the id of the user's most
recently created todo via a 1-item page, or nothing (`""` in the code) when
the user has none; the input text is ignored. -/
def extractTodoId (env : Env) (_userInput : Str) (st : StoreState) :
    Except Str (Option Nat) × StoreState :=
  match env.listTodos none 1 st with
  | (Except.error e, st) => (Except.error e, st)
  | (Except.ok todos, st) =>
    (Except.ok (match todos with
      | t :: _ => some t.id
      | [] => none), st)

/-- Embeds `_handle_add_todo` (lines 201-225): extract the title, create an
incomplete todo with it and an empty description, and confirm. -/
def handleAddTodo (env : Env) (userInput : Str) (st : StoreState) :
    Except Str Str × StoreState :=
  let title := extractTitle userInput
  match env.createTodo title [] false st with
  | (Except.error e, st) => (Except.error e, st)
  | (Except.ok t, st) =>
    (Except.ok ("I've added '".toList ++ t.title ++ "' to your todo list.".toList), st)

/-- Embeds `_handle_list_todos` (lines 227-265): choose the completion filter
by scanning the lowercased input, fetch up to 20 todos, and render one of
the three fixed empty messages or a bulleted list of titles. -/
def handleListTodos (env : Env) (userInput : Str) (st : StoreState) :
    Except Str Str × StoreState :=
  let lowered := lowerL userInput
  let statusFilter : Option Bool :=
    if containsSub "pending".toList lowered || containsSub "incomplete".toList lowered then
      some false
    else if containsSub "completed".toList lowered || containsSub "done".toList lowered then
      some true
    else none
  match env.listTodos statusFilter 20 st with
  | (Except.error e, st) => (Except.error e, st)
  | (Except.ok todos, st) =>
    if todos.isEmpty then
      (Except.ok (match statusFilter with
        | some false => "You don't have any pending todos right now.".toList
        | some true => "You don't have any completed todos right now.".toList
        | none => "You don't have any todos right now.".toList), st)
    else
      let todoList := List.intercalate "\n".toList (todos.map fun t => "- ".toList ++ t.title)
      (Except.ok (match statusFilter with
        | some false => "Here are your pending todos:\n".toList ++ todoList
        | some true => "Here are your completed todos:\n".toList ++ todoList
        | none => "Here are your todos:\n".toList ++ todoList), st)

/-- Embeds `_handle_complete_todo` (lines 267-288): resolve the target via
`_extract_todo_id`; with no target return the fixed guidance message, else
toggle the flag and report the new state. -/
def handleCompleteTodo (env : Env) (userInput : Str) (st : StoreState) :
    Except Str Str × StoreState :=
  match extractTodoId env userInput st with
  | (Except.error e, st) => (Except.error e, st)
  | (Except.ok none, st) =>
    (Except.ok "I couldn't find a specific todo to mark as complete. Please specify which todo you want to complete.".toList, st)
  | (Except.ok (some tid), st) =>
    match env.toggleTodo tid st with
    | (Except.error e, st) => (Except.error e, st)
    | (Except.ok t, st) =>
      let status := if t.is_completed then "completed".toList else "marked as incomplete".toList
      (Except.ok ("I've marked '".toList ++ t.title ++ "' as ".toList ++ status ++ ".".toList), st)

/-- Embeds `_handle_delete_todo` (lines 290-314): resolve the target via
`_extract_todo_id`; with no target return the fixed guidance message, else
delete and report success or refusal. -/
def handleDeleteTodo (env : Env) (userInput : Str) (st : StoreState) :
    Except Str Str × StoreState :=
  match extractTodoId env userInput st with
  | (Except.error e, st) => (Except.error e, st)
  | (Except.ok none, st) =>
    (Except.ok "I couldn't find a specific todo to delete. Please specify which todo you want to delete.".toList, st)
  | (Except.ok (some tid), st) =>
    match env.deleteTodo tid st with
    | (Except.error e, st) => (Except.error e, st)
    | (Except.ok true, st) =>
      (Except.ok "The todo has been deleted successfully.".toList, st)
    | (Except.ok false, st) =>
      (Except.ok "I couldn't delete that todo. It may not exist or you may not have permission to delete it.".toList, st)

/-- Embeds `_handle_update_todo` (lines 316-346): fetch the most recent todo
with a 1-item page; with none return the fixed message; derive the new title
by removing the literal substrings "update", "change", "modify" from the raw
input (no lowercasing) and stripping; ask for details when it is empty, else
set the title and report it. -/
def handleUpdateTodo (env : Env) (userInput : Str) (st : StoreState) :
    Except Str Str × StoreState :=
  match env.listTodos none 1 st with
  | (Except.error e, st) => (Except.error e, st)
  | (Except.ok [], st) =>
    (Except.ok "You don't have any todos to update.".toList, st)
  | (Except.ok (t :: _), st) =>
    let newTitle :=
      stripL (replaceAll "modify".toList (replaceAll "change".toList (replaceAll "update".toList userInput)))
    if newTitle.isEmpty then
      (Except.ok "Please specify what you'd like to change the todo to.".toList, st)
    else
      match env.updateTodoTitle t.id newTitle st with
      | (Except.error e, st) => (Except.error e, st)
      | (Except.ok t2, st) =>
        (Except.ok ("I've updated the todo to '".toList ++ t2.title ++ "'.".toList), st)

/-- Embeds `_handle_general_query` (lines 348-386): fetch the recent messages
(page 1, limit 10), form the role-tagged history plus the current input,
call the model with `history[:-1]` and the input as the live turn; its own
try/except turns an AI client error into the apologetic string returned as a
normal response. -/
def handleGeneralQuery (env : Env) (userInput : Str) (convId : Nat)
    (st : StoreState) : Except Str Str × StoreState :=
  match env.listMsgs convId st with
  | (Except.error e, st) => (Except.error e, st)
  | (Except.ok recentMsgs, st) =>
    let formattedHistory := recentMsgs ++ [⟨Role.user, userInput⟩]
    match env.aiComplete formattedHistory.dropLast userInput st with
    | (Except.ok text, st) => (Except.ok text, st)
    | (Except.error e, st) => (Except.ok (errorReply e), st)

/-- The dispatch table of `process_natural_language_todo_command`
(lines 107-120). -/
def runHandler (env : Env) (intent : Intent) (userInput : Str) (convId : Nat)
    (st : StoreState) : Except Str Str × StoreState :=
  match intent with
  | Intent.add => handleAddTodo env userInput st
  | Intent.list => handleListTodos env userInput st
  | Intent.complete => handleCompleteTodo env userInput st
  | Intent.delete => handleDeleteTodo env userInput st
  | Intent.update => handleUpdateTodo env userInput st
  | Intent.other => handleGeneralQuery env userInput convId st

/-- Lines 94-99 (also 40-45): the user's most recent conversation, or a newly
created one when none exists. -/
def resolveConv (env : Env) (st : StoreState) : Except Str Nat × StoreState :=
  match env.listConvs st with
  | (Except.error e, st) => (Except.error e, st)
  | (Except.ok (cid :: _), st) => (Except.ok cid, st)
  | (Except.ok [], st) => env.createConv st

/-- Embeds `process_natural_language_todo_command` (lines 82-127): resolve
the conversation, log the user message, classify the (lowercased) input,
dispatch to the handler with any exception it raises converted to the
apologetic string, log the response as the assistant message, return it.
Only the handler call sits inside the try/except. -/
def processNaturalLanguageTodoCommand (env : Env) (userInput : Str)
    (st : StoreState) : Except Str Str × StoreState :=
  match resolveConv env st with
  | (Except.error e, st) => (Except.error e, st)
  | (Except.ok convId, st) =>
    match env.appendMsg convId Role.user userInput st with
    | (Except.error e, st) => (Except.error e, st)
    | (Except.ok _, st) =>
      let intent := determineIntent (lowerL userInput)
      let (hres, st2) := runHandler env intent userInput convId st
      let response :=
        match hres with
        | Except.ok r => r
        | Except.error e => errorReply e
      match env.appendMsg convId Role.assistant response st2 with
      | (Except.error e, st3) => (Except.error e, st3)
      | (Except.ok _, st3) => (Except.ok response, st3)

/-- Embeds `process_chat` (lines 28-80): resolve the conversation, log the
user message, fetch the recent messages, call the model with `history[:-1]`
and the input as the live turn (only the AI call sits inside the
try/except), log and return the response. -/
def processChat (env : Env) (userInput : Str) (st : StoreState) :
    Except Str Str × StoreState :=
  match resolveConv env st with
  | (Except.error e, st) => (Except.error e, st)
  | (Except.ok convId, st) =>
    match env.appendMsg convId Role.user userInput st with
    | (Except.error e, st) => (Except.error e, st)
    | (Except.ok _, st) =>
      match env.listMsgs convId st with
      | (Except.error e, st) => (Except.error e, st)
      | (Except.ok recentMsgs, st) =>
        let formattedHistory := recentMsgs ++ [⟨Role.user, userInput⟩]
        let (aiRes, st2) := env.aiComplete formattedHistory.dropLast userInput st
        let aiResponse :=
          match aiRes with
          | Except.ok text => text
          | Except.error e => errorReply e
        match env.appendMsg convId Role.assistant aiResponse st2 with
        | (Except.error e, st3) => (Except.error e, st3)
        | (Except.ok _, st3) => (Except.ok aiResponse, st3)

/-! ### Helper notions used by the claim statements -/

/-- The messages of the user's most recent (active) conversation. -/
def activeMsgs (st : StoreState) : List Msg :=
  match st.convs.getLast? with
  | some c => c.msgs
  | none => []

/-- What one completed turn does to the conversation list, per the spec's
invariant: the user message and the assistant message are appended, in that
order, to exactly the most recent conversation, which is created (with the
store's fresh id) when none exists. -/
def appendTurn (fresh : Nat) (u a : Msg) : List Conv → List Conv
  | [] => [⟨fresh, [u, a]⟩]
  | [c] => [{ c with msgs := c.msgs ++ [u, a] }]
  | c :: rest => c :: appendTurn fresh u a rest

/-- Conversation ids are pairwise distinct (they are primary keys of the
store). -/
abbrev ConvIdsOk (st : StoreState) : Prop :=
  (st.convs.map Conv.id).Nodup

/-! ### Lemmas about the text functions -/

lemma stripL_eq (s : Str) :
    stripL s = List.rdropWhile isPySpace (s.dropWhile isPySpace) := rfl

lemma dropWhile_rdropWhile (t : Str) (ht : List.dropWhile isPySpace t = t) :
    List.dropWhile isPySpace (List.rdropWhile isPySpace t) =
      List.rdropWhile isPySpace t := by
  cases hrt : List.rdropWhile isPySpace t with
  | nil => simp
  | cons c v =>
    obtain ⟨w, hw⟩ := List.rdropWhile_prefix isPySpace t
    rw [hrt] at hw
    have hsome : (List.dropWhile isPySpace t).head? = some c := by
      rw [ht, ← hw]; rfl
    have hc := List.head?_dropWhile_not isPySpace t
    rw [hsome] at hc
    simp only at hc
    rw [List.dropWhile_cons_of_neg (by simp [hc])]

/-- Python `strip` is idempotent. -/
lemma stripL_stripL (s : Str) : stripL (stripL s) = stripL s := by
  rw [stripL_eq s, stripL_eq]
  rw [dropWhile_rdropWhile _ (List.dropWhile_idempotent _ _)]
  rw [List.rdropWhile_idempotent]

lemma extractTitle_eq (input : Str) :
    extractTitle input = extractTitleRef input := by
  rw [extractTitle, fillerTokens]
  simp only [List.map_cons, List.map_nil, List.foldl_cons, List.foldl_nil]
  rw [stripL_stripL]
  rfl

lemma determineIntent_eq (input : Str) :
    determineIntent input =
      (if anyKeyword addKeywords (lowerL input) then Intent.add
       else if anyKeyword listKeywords (lowerL input) then Intent.list
       else if anyKeyword completeKeywords (lowerL input) then Intent.complete
       else if anyKeyword deleteKeywords (lowerL input) then Intent.delete
       else if anyKeyword updateKeywords (lowerL input) then Intent.update
       else Intent.other) := rfl

/-! ### The claims -/

/-- C1: for every input string the intent classifier lowercases the input and
tests substring membership of the five fixed keyword sets in the fixed
priority order Add, List, Complete, Delete, Update, returning the first set
with a matching keyword substring (`classifyRef`, written from the claim) and
`other` when none matches; the earliest-priority set wins, and in particular
an input containing both an Add and a Delete keyword classifies as Add (shown
in general and at the concrete input "add the milk then delete the eggs"). -/
theorem C1_intent_classifier :
    (∀ input : Str, determineIntent input = classifyRef input) ∧
    (∀ input : Str,
      (anyKeyword addKeywords (lowerL input) = true →
        determineIntent input = Intent.add) ∧
      (anyKeyword addKeywords (lowerL input) = false →
        anyKeyword listKeywords (lowerL input) = true →
        determineIntent input = Intent.list) ∧
      (anyKeyword addKeywords (lowerL input) = false →
        anyKeyword listKeywords (lowerL input) = false →
        anyKeyword completeKeywords (lowerL input) = true →
        determineIntent input = Intent.complete) ∧
      (anyKeyword addKeywords (lowerL input) = false →
        anyKeyword listKeywords (lowerL input) = false →
        anyKeyword completeKeywords (lowerL input) = false →
        anyKeyword deleteKeywords (lowerL input) = true →
        determineIntent input = Intent.delete) ∧
      (anyKeyword addKeywords (lowerL input) = false →
        anyKeyword listKeywords (lowerL input) = false →
        anyKeyword completeKeywords (lowerL input) = false →
        anyKeyword deleteKeywords (lowerL input) = false →
        anyKeyword updateKeywords (lowerL input) = true →
        determineIntent input = Intent.update) ∧
      (anyKeyword addKeywords (lowerL input) = false →
        anyKeyword listKeywords (lowerL input) = false →
        anyKeyword completeKeywords (lowerL input) = false →
        anyKeyword deleteKeywords (lowerL input) = false →
        anyKeyword updateKeywords (lowerL input) = false →
        determineIntent input = Intent.other)) ∧
    (∀ input : Str, anyKeyword addKeywords (lowerL input) = true →
      anyKeyword deleteKeywords (lowerL input) = true →
      determineIntent input = Intent.add) ∧
    (determineIntent "add the milk then delete the eggs".toList = Intent.add ∧
      anyKeyword addKeywords (lowerL "add the milk then delete the eggs".toList) = true ∧
      anyKeyword deleteKeywords (lowerL "add the milk then delete the eggs".toList) = true) := by
  refine ⟨fun input => rfl, fun input => ?_, fun input ha hd => ?_, by decide⟩
  · refine ⟨fun h1 => by simp [determineIntent_eq, h1],
      fun h1 h2 => by simp [determineIntent_eq, h1, h2],
      fun h1 h2 h3 => by simp [determineIntent_eq, h1, h2, h3],
      fun h1 h2 h3 h4 => by simp [determineIntent_eq, h1, h2, h3, h4],
      fun h1 h2 h3 h4 h5 => by simp [determineIntent_eq, h1, h2, h3, h4, h5],
      fun h1 h2 h3 h4 h5 => by simp [determineIntent_eq, h1, h2, h3, h4, h5]⟩
  · simp [determineIntent_eq, ha]

/-- C2: for every input the title extractor equals the reference definition
written from the claim (lowercase, then remove every occurrence of each
filler token add, create, new, remember, remind, me, to, in that order,
anywhere as a substring, trimming whitespace after each removal);
`extract_title("remind me to buy milk")` is exactly "buy milk", and in
`extract_title("add tomorrow's meeting")` the "to" inside "tomorrow's" is
stripped as well (the result is "morrow's eting" — the "me" of "meeting" is
also removed — and contains no "to"). -/
theorem C2_extract_title :
    (∀ input : Str, extractTitle input = extractTitleRef input) ∧
    extractTitle "remind me to buy milk".toList = "buy milk".toList ∧
    extractTitle "add tomorrow's meeting".toList = "morrow's eting".toList ∧
    containsSub "to".toList (extractTitle "add tomorrow's meeting".toList) = false :=
  ⟨extractTitle_eq, by decide, by decide, by decide⟩

/-! ### List helper lemmas -/

lemma appendToConv_concat (l : List Conv) (c : Conv) (m : Msg)
    (h : c.id ∉ l.map Conv.id) :
    appendToConv c.id m (l ++ [c]) = l ++ [{ c with msgs := c.msgs ++ [m] }] := by
  induction l with
  | nil => simp [appendToConv]
  | cons d rest ih =>
    have h1 : ¬ d.id = c.id := by
      intro hh; exact h (by simp [hh])
    have h2 : c.id ∉ rest.map Conv.id := by
      intro hh; exact h (by simp [hh])
    simp [appendToConv, h1, ih h2]

lemma findConv_concat (l : List Conv) (c : Conv)
    (h : c.id ∉ l.map Conv.id) :
    findConv c.id (l ++ [c]) = some c := by
  induction l with
  | nil => simp [findConv]
  | cons d rest ih =>
    have h1 : ¬ d.id = c.id := by
      intro hh; exact h (by simp [hh])
    have h2 : c.id ∉ rest.map Conv.id := by
      intro hh; exact h (by simp [hh])
    simp [findConv, h1, ih h2]

lemma findTodo_concat_isSome (l : List Todo) (t : Todo) :
    ∃ u, findTodo t.id (l ++ [t]) = some u := by
  induction l with
  | nil => exact ⟨t, by simp [findTodo]⟩
  | cons d rest ih =>
    by_cases h1 : d.id = t.id
    · exact ⟨d, by simp [findTodo, h1]⟩
    · obtain ⟨u, hu⟩ := ih
      exact ⟨u, by simp [findTodo, h1, hu]⟩

lemma findTodo_concat (l : List Todo) (t : Todo)
    (h : t.id ∉ l.map Todo.id) :
    findTodo t.id (l ++ [t]) = some t := by
  induction l with
  | nil => simp [findTodo]
  | cons d rest ih =>
    have h1 : ¬ d.id = t.id := by
      intro hh; exact h (by simp [hh])
    have h2 : t.id ∉ rest.map Todo.id := by
      intro hh; exact h (by simp [hh])
    simp [findTodo, h1, ih h2]

lemma toggleInList_concat (l : List Todo) (t : Todo)
    (h : t.id ∉ l.map Todo.id) :
    toggleInList t.id (l ++ [t]) = l ++ [{ t with is_completed := !t.is_completed }] := by
  induction l with
  | nil => simp [toggleInList]
  | cons d rest ih =>
    have h1 : ¬ d.id = t.id := by
      intro hh; exact h (by simp [hh])
    have h2 : t.id ∉ rest.map Todo.id := by
      intro hh; exact h (by simp [hh])
    simp [toggleInList, h1, ih h2]

lemma setTitleInList_concat (l : List Todo) (t : Todo) (nt : Str)
    (h : t.id ∉ l.map Todo.id) :
    setTitleInList t.id nt (l ++ [t]) = l ++ [{ t with title := nt }] := by
  induction l with
  | nil => simp [setTitleInList]
  | cons d rest ih =>
    have h1 : ¬ d.id = t.id := by
      intro hh; exact h (by simp [hh])
    have h2 : t.id ∉ rest.map Todo.id := by
      intro hh; exact h (by simp [hh])
    simp [setTitleInList, h1, ih h2]

lemma nodup_concat_not_mem {l : List Conv} {c : Conv}
    (h : ((l ++ [c]).map Conv.id).Nodup) : c.id ∉ l.map Conv.id := by
  rw [List.map_append] at h
  intro hm
  rcases List.nodup_append.mp h with ⟨_, _, hdisj⟩
  exact hdisj hm (by simp)

lemma todoMatchesFilter_none : todoMatchesFilter none = fun _ => true := rfl

lemma appendTurn_concat (fresh : Nat) (u a : Msg) (l : List Conv) (c : Conv) :
    appendTurn fresh u a (l ++ [c]) = l ++ [{ c with msgs := c.msgs ++ [u, a] }] := by
  induction l with
  | nil => rfl
  | cons d rest ih =>
    cases rest with
    | nil => simp [appendTurn]
    | cons e rest2 => simp [appendTurn] at ih ⊢; exact ih

/-! ### Stepping lemmas for the dispatcher over the spec-modelled stores -/

lemma resolveConv_nil (env : Env) (hlc : env.listConvs = specListConvs)
    (hcc : env.createConv = specCreateConv) (st : StoreState)
    (h : st.convs = []) :
    resolveConv env st =
      (Except.ok st.nextId,
       { st with convs := [⟨st.nextId, []⟩], nextId := st.nextId + 1 }) := by
  simp only [resolveConv, hlc, specListConvs, h, List.reverse_nil, List.take_nil,
    List.map_nil, hcc, specCreateConv]
  simp [h]

lemma resolveConv_concat (env : Env) (hlc : env.listConvs = specListConvs)
    (st : StoreState) (l : List Conv) (c : Conv) (h : st.convs = l ++ [c]) :
    resolveConv env st = (Except.ok c.id, st) := by
  simp only [resolveConv, hlc, specListConvs, h, List.reverse_append,
    List.reverse_cons, List.reverse_nil, List.nil_append, List.singleton_append,
    List.take_succ_cons, List.take_zero, List.map_cons, List.map_nil]


lemma runHandler_spec_ok (env : Env)
    (htl : env.listTodos = specListTodos)
    (hct : env.createTodo = specCreateTodo)
    (htg : env.toggleTodo = specToggleTodo)
    (hdl : env.deleteTodo = specDeleteTodo)
    (hup : env.updateTodoTitle = specUpdateTodo)
    (hlm : env.listMsgs = specListMsgs)
    (hai : env.aiComplete = specAiComplete)
    (intent : Intent) (inp : Str) (cid : Nat)
    (st : StoreState) :
    ∃ r st2, runHandler env intent inp cid st = (Except.ok r, st2) ∧
      st2.convs = st.convs ∧ st2.aiReply = st.aiReply ∧
      st2.nextId ≥ st.nextId := by
  cases intent with
  | add =>
    simp only [runHandler, handleAddTodo, hct, specCreateTodo]
    exact ⟨_, _, rfl, rfl, rfl, Nat.le_succ _⟩
  | list =>
    simp only [runHandler, handleListTodos, htl, specListTodos]
    repeat' split
    all_goals exact ⟨_, _, rfl, rfl, rfl, Nat.le_refl _⟩
  | complete =>
    simp only [runHandler, handleCompleteTodo, extractTodoId, htl, htg,
      specListTodos, todoMatchesFilter_none, List.filter_true]
    rcases List.eq_nil_or_concat st.todos with h | ⟨l, t, h⟩
    · rw [h]
      exact ⟨_, st, rfl, rfl, rfl, Nat.le_refl _⟩
    · rw [List.concat_eq_append] at h
      rw [h]
      simp only [List.reverse_append, List.reverse_cons, List.reverse_nil,
        List.nil_append, List.singleton_append, List.take_succ_cons, List.take_zero]
      obtain ⟨u, hu⟩ := findTodo_concat_isSome l t
      simp only [specToggleTodo, h, hu]
      exact ⟨_, _, rfl, rfl, rfl, Nat.le_refl _⟩
  | delete =>
    simp only [runHandler, handleDeleteTodo, extractTodoId, htl, hdl,
      specListTodos, todoMatchesFilter_none, List.filter_true]
    rcases List.eq_nil_or_concat st.todos with h | ⟨l, t, h⟩
    · rw [h]
      exact ⟨_, st, rfl, rfl, rfl, Nat.le_refl _⟩
    · rw [List.concat_eq_append] at h
      rw [h]
      simp only [List.reverse_append, List.reverse_cons, List.reverse_nil,
        List.nil_append, List.singleton_append, List.take_succ_cons, List.take_zero]
      obtain ⟨u, hu⟩ := findTodo_concat_isSome l t
      simp only [specDeleteTodo, h, hu, Option.isSome_some]
      exact ⟨_, _, rfl, rfl, rfl, Nat.le_refl _⟩
  | update =>
    simp only [runHandler, handleUpdateTodo, htl, hup, specListTodos,
      todoMatchesFilter_none, List.filter_true]
    rcases List.eq_nil_or_concat st.todos with h | ⟨l, t, h⟩
    · rw [h]
      exact ⟨_, st, rfl, rfl, rfl, Nat.le_refl _⟩
    · rw [List.concat_eq_append] at h
      rw [h]
      simp only [List.reverse_append, List.reverse_cons, List.reverse_nil,
        List.nil_append, List.singleton_append, List.take_succ_cons, List.take_zero]
      split
      · exact ⟨_, _, rfl, rfl, rfl, Nat.le_refl _⟩
      · obtain ⟨u, hu⟩ := findTodo_concat_isSome l t
        simp only [specUpdateTodo, h, hu]
        exact ⟨_, _, rfl, rfl, rfl, Nat.le_refl _⟩
  | other =>
    simp only [runHandler, handleGeneralQuery, hlm, specListMsgs, hai, specAiComplete]
    exact ⟨_, _, rfl, rfl, rfl, Nat.le_refl _⟩

lemma runHandler_specEnv (intent : Intent) (inp : Str) (cid : Nat)
    (st : StoreState) :
    ∃ r st2, runHandler specEnv intent inp cid st = (Except.ok r, st2) ∧
      st2.convs = st.convs ∧ st2.aiReply = st.aiReply ∧
      st2.nextId ≥ st.nextId :=
  runHandler_spec_ok specEnv rfl rfl rfl rfl rfl rfl rfl intent inp cid st

/-- The user-facing response the dispatcher derives from the handler's
outcome: the handler's text, or the apologetic string around the exception
detail. -/
def respOf : Except Str Str → Str
  | Except.ok r => r
  | Except.error e => errorReply e

lemma processNL_step_concat (env : Env)
    (hlc : env.listConvs = specListConvs)
    (ham : env.appendMsg = specAppendMsg)
    (input : Str) (st : StoreState) (l : List Conv) (c : Conv)
    (hconv : st.convs = l ++ [c]) (hid : c.id ∉ l.map Conv.id)
    (hres : Except Str Str) (st2 : StoreState)
    (hrun : runHandler env (determineIntent (lowerL input)) input c.id
        { st with convs := l ++ [{ c with msgs := c.msgs ++ [⟨Role.user, input⟩] }] }
        = (hres, st2)) :
    processNaturalLanguageTodoCommand env input st =
      (Except.ok (respOf hres),
       { st2 with convs := appendToConv c.id ⟨Role.assistant, respOf hres⟩ st2.convs }) := by
  have happ : appendToConv c.id ⟨Role.user, input⟩ st.convs =
      l ++ [{ c with msgs := c.msgs ++ [⟨Role.user, input⟩] }] := by
    rw [hconv]; exact appendToConv_concat l c _ hid
  simp only [processNaturalLanguageTodoCommand,
    resolveConv_concat env hlc st l c hconv, ham, specAppendMsg, happ, hrun]
  cases hres <;> simp [respOf]

lemma processNL_step_nil (env : Env)
    (hlc : env.listConvs = specListConvs)
    (hcc : env.createConv = specCreateConv)
    (ham : env.appendMsg = specAppendMsg)
    (input : Str) (st : StoreState)
    (hconv : st.convs = [])
    (hres : Except Str Str) (st2 : StoreState)
    (hrun : runHandler env (determineIntent (lowerL input)) input st.nextId
        { st with convs := [⟨st.nextId, [⟨Role.user, input⟩]⟩], nextId := st.nextId + 1 }
        = (hres, st2)) :
    processNaturalLanguageTodoCommand env input st =
      (Except.ok (respOf hres),
       { st2 with convs := appendToConv st.nextId ⟨Role.assistant, respOf hres⟩ st2.convs }) := by
  simp only [processNaturalLanguageTodoCommand,
    resolveConv_nil env hlc hcc st hconv, ham, specAppendMsg]
  simp only [appendToConv, List.nil_append, eq_self_iff_true, if_true]
  rw [hrun]
  cases hres <;> simp [respOf]

lemma handleGeneralQuery_spec (inp : Str) (cid : Nat) (st : StoreState)
    (c : Conv) (hfind : findConv cid st.convs = some c) :
    handleGeneralQuery specEnv inp cid st =
      (Except.ok (st.aiReply (lastN 10 c.msgs) inp), st) := by
  simp only [handleGeneralQuery, specEnv, specListMsgs, hfind, specAiComplete,
    List.dropLast_concat]

lemma processChat_step_concat (env : Env)
    (hlc : env.listConvs = specListConvs)
    (ham : env.appendMsg = specAppendMsg)
    (hlm : env.listMsgs = specListMsgs)
    (hai : env.aiComplete = specAiComplete)
    (input : Str) (st : StoreState)
    (l : List Conv) (c : Conv)
    (hconv : st.convs = l ++ [c]) (hid : c.id ∉ l.map Conv.id) :
    processChat env input st =
      (Except.ok (st.aiReply (lastN 10 (c.msgs ++ [⟨Role.user, input⟩])) input),
       { st with convs := l ++ [{ c with msgs := c.msgs ++
           [⟨Role.user, input⟩,
            ⟨Role.assistant,
             st.aiReply (lastN 10 (c.msgs ++ [⟨Role.user, input⟩])) input⟩] }] }) := by
  have happ : appendToConv c.id ⟨Role.user, input⟩ st.convs =
      l ++ [{ c with msgs := c.msgs ++ [⟨Role.user, input⟩] }] := by
    rw [hconv]; exact appendToConv_concat l c _ hid
  have hfind : findConv c.id (l ++ [{ c with msgs := c.msgs ++ [⟨Role.user, input⟩] }]) =
      some { c with msgs := c.msgs ++ [⟨Role.user, input⟩] } :=
    findConv_concat l { c with msgs := c.msgs ++ [⟨Role.user, input⟩] } hid
  have happ2 : appendToConv c.id
      ⟨Role.assistant, st.aiReply (lastN 10 (c.msgs ++ [⟨Role.user, input⟩])) input⟩
      (l ++ [{ c with msgs := c.msgs ++ [⟨Role.user, input⟩] }]) =
      l ++ [{ c with msgs := (c.msgs ++ [⟨Role.user, input⟩]) ++
        [⟨Role.assistant, st.aiReply (lastN 10 (c.msgs ++ [⟨Role.user, input⟩])) input⟩] }] :=
    appendToConv_concat l { c with msgs := c.msgs ++ [⟨Role.user, input⟩] } _ hid
  simp only [processChat, resolveConv_concat env hlc st l c hconv, ham,
    specAppendMsg, happ, hlm, specListMsgs, hfind, hai, specAiComplete,
    List.dropLast_concat, happ2, List.append_assoc, List.cons_append,
    List.nil_append]

lemma processChat_step_nil (env : Env)
    (hlc : env.listConvs = specListConvs)
    (hcc : env.createConv = specCreateConv)
    (ham : env.appendMsg = specAppendMsg)
    (hlm : env.listMsgs = specListMsgs)
    (hai : env.aiComplete = specAiComplete)
    (input : Str) (st : StoreState)
    (hconv : st.convs = []) :
    processChat env input st =
      (Except.ok (st.aiReply (lastN 10 [⟨Role.user, input⟩]) input),
       { st with
         convs := [⟨st.nextId, [⟨Role.user, input⟩,
           ⟨Role.assistant, st.aiReply (lastN 10 [⟨Role.user, input⟩]) input⟩]⟩]
         nextId := st.nextId + 1 }) := by
  simp only [processChat, resolveConv_nil env hlc hcc st hconv, ham,
    specAppendMsg, appendToConv, List.nil_append, eq_self_iff_true, if_true,
    hlm, specListMsgs, findConv, hai, specAiComplete, List.dropLast_concat,
    List.cons_append]

/-- C4 (spec-modelled stores): every completed call of both entry points logs
the user input as the user-role message and the returned response as the
assistant-role message, appended in that order to exactly the user's most
recent conversation (created lazily when none exists) — `appendTurn` states
that shape; all other conversations are untouched. -/
theorem C4_turn_logging (input : Str) (st : StoreState) (hc : ConvIdsOk st) :
    (∃ r, (processNaturalLanguageTodoCommand specEnv input st).1 = Except.ok r ∧
       (processNaturalLanguageTodoCommand specEnv input st).2.convs =
         appendTurn st.nextId ⟨Role.user, input⟩ ⟨Role.assistant, r⟩ st.convs) ∧
    (∃ r, (processChat specEnv input st).1 = Except.ok r ∧
       (processChat specEnv input st).2.convs =
         appendTurn st.nextId ⟨Role.user, input⟩ ⟨Role.assistant, r⟩ st.convs) := by
  constructor
  · rcases List.eq_nil_or_concat st.convs with h | ⟨l, c, h⟩
    · obtain ⟨r, st2, hr, hconvs, _, _⟩ := runHandler_specEnv
        (determineIntent (lowerL input)) input st.nextId
        { st with convs := [⟨st.nextId, [⟨Role.user, input⟩]⟩], nextId := st.nextId + 1 }
      have hstep := processNL_step_nil specEnv rfl rfl rfl input st h (Except.ok r) st2 hr
      refine ⟨r, ?_, ?_⟩
      · rw [hstep]
        rfl
      · rw [hstep]
        rw [h]
        simp only [appendTurn]
        rw [show st2.convs = [⟨st.nextId, [⟨Role.user, input⟩]⟩] from hconvs]
        simp [appendToConv, respOf]
    · rw [List.concat_eq_append] at h
      have hc2 : ((l ++ [c]).map Conv.id).Nodup := by
        have hc1 : (st.convs.map Conv.id).Nodup := hc
        rwa [h] at hc1
      have hid := nodup_concat_not_mem hc2
      obtain ⟨r, st2, hr, hconvs, _, _⟩ := runHandler_specEnv
        (determineIntent (lowerL input)) input c.id
        { st with convs := l ++ [{ c with msgs := c.msgs ++ [⟨Role.user, input⟩] }] }
      have hstep := processNL_step_concat specEnv rfl rfl input st l c h hid (Except.ok r) st2 hr
      refine ⟨r, ?_, ?_⟩
      · rw [hstep]
        rfl
      · rw [hstep]
        rw [h, appendTurn_concat]
        rw [show st2.convs = l ++ [{ c with msgs := c.msgs ++ [⟨Role.user, input⟩] }] from hconvs]
        have h2 := appendToConv_concat l { c with msgs := c.msgs ++ [⟨Role.user, input⟩] }
          (⟨Role.assistant, respOf (Except.ok r)⟩ : Msg) hid
        rw [h2]
        simp [List.append_assoc, respOf]
  · rcases List.eq_nil_or_concat st.convs with h | ⟨l, c, h⟩
    · have hstep := processChat_step_nil specEnv rfl rfl rfl rfl rfl input st h
      refine ⟨_, by rw [hstep], ?_⟩
      rw [hstep]
      rw [h]
      simp [appendTurn]
    · rw [List.concat_eq_append] at h
      have hc2 : ((l ++ [c]).map Conv.id).Nodup := by
        have hc1 : (st.convs.map Conv.id).Nodup := hc
        rwa [h] at hc1
      have hid := nodup_concat_not_mem hc2
      have hstep := processChat_step_concat specEnv rfl rfl rfl rfl input st l c h hid
      refine ⟨_, by rw [hstep], ?_⟩
      rw [hstep]
      rw [h, appendTurn_concat]


lemma appendToConv_map_id (cid : Nat) (m : Msg) (l : List Conv) :
    (appendToConv cid m l).map Conv.id = l.map Conv.id := by
  induction l with
  | nil => rfl
  | cons c rest ih =>
    by_cases h : c.id = cid
    · simp [appendToConv, h]
    · simp [appendToConv, h, ih]

/-- Outcome of one dispatcher call over the spec-modelled conversation store,
for a handler whose effect only touches the todo table: the response is the
handler's (or the apologetic string), the todos become `newTodos`, and the
turn's two messages land on the active conversation. -/
lemma processNL_outcome (env : Env)
    (hlc : env.listConvs = specListConvs)
    (hcc : env.createConv = specCreateConv)
    (ham : env.appendMsg = specAppendMsg)
    (input : Str) (st : StoreState) (hc : ConvIdsOk st)
    (hres : Except Str Str) (newTodos : List Todo)
    (hrun : ∀ (cid : Nat) (stt : StoreState), stt.todos = st.todos →
        stt.aiReply = st.aiReply →
        runHandler env (determineIntent (lowerL input)) input cid stt =
          (hres, { stt with todos := newTodos })) :
    (processNaturalLanguageTodoCommand env input st).1 = Except.ok (respOf hres) ∧
    (processNaturalLanguageTodoCommand env input st).2.todos = newTodos ∧
    (processNaturalLanguageTodoCommand env input st).2.aiReply = st.aiReply ∧
    ConvIdsOk (processNaturalLanguageTodoCommand env input st).2 ∧
    activeMsgs (processNaturalLanguageTodoCommand env input st).2 =
      activeMsgs st ++ [⟨Role.user, input⟩, ⟨Role.assistant, respOf hres⟩] := by
  rcases List.eq_nil_or_concat st.convs with h | ⟨l, c, h⟩
  · have hstep := processNL_step_nil env hlc hcc ham input st h hres _
      (hrun st.nextId
        { st with convs := [Conv.mk st.nextId [Msg.mk Role.user input]],
                  nextId := st.nextId + 1 }
        rfl rfl)
    rw [hstep]
    refine ⟨rfl, rfl, rfl, ?_, ?_⟩
    · show (List.map Conv.id (appendToConv st.nextId _ _)).Nodup
      rw [appendToConv_map_id]
      simp
    · simp only [activeMsgs, h, appendToConv, eq_self_iff_true, if_true]
      simp
  · rw [List.concat_eq_append] at h
    have hc2 : ((l ++ [c]).map Conv.id).Nodup := by
      have hc1 : (st.convs.map Conv.id).Nodup := hc
      rwa [h] at hc1
    have hid := nodup_concat_not_mem hc2
    have hstep := processNL_step_concat env hlc ham input st l c h hid hres _
      (hrun c.id
        { st with convs := l ++ [{ c with msgs := c.msgs ++ [Msg.mk Role.user input] }] }
        rfl rfl)
    rw [hstep]
    refine ⟨rfl, rfl, rfl, ?_, ?_⟩
    · show (List.map Conv.id (appendToConv c.id _ _)).Nodup
      rw [appendToConv_map_id]
      show ((l ++ [{ c with msgs := c.msgs ++ [Msg.mk Role.user input] }]).map Conv.id).Nodup
      simpa using hc2
    · have h2 : appendToConv c.id (⟨Role.assistant, respOf hres⟩ : Msg)
          (l ++ [{ c with msgs := c.msgs ++ [⟨Role.user, input⟩] }]) =
          l ++ [{ c with msgs := (c.msgs ++ [⟨Role.user, input⟩]) ++
            [⟨Role.assistant, respOf hres⟩] }] :=
        appendToConv_concat l { c with msgs := c.msgs ++ [⟨Role.user, input⟩] } _ hid
      simp only [activeMsgs, h2, h, List.getLast?_concat, List.append_assoc,
        List.cons_append, List.nil_append]


/-! ### Fault-injecting service environments for the error-path claims -/

/-- `specEnv`, except that the Todo Store's toggle operation raises a store
error with detail `e` (the handler exception of C3). -/
def failToggleEnv (e : Str) : Env :=
  { specEnv with toggleTodo := fun _ st => (Except.error e, st) }

/-- `specEnv`, except that the Todo Store's delete operation raises a store
error with detail `e`; a run that never reaches it cannot show this error. -/
def probeDeleteEnv (e : Str) : Env :=
  { specEnv with deleteTodo := fun _ st => (Except.error e, st) }

/-- C3 (spec-modelled stores): when the invoked handler raises — here the
Complete handler, whose store toggle fails with detail `e` — the dispatcher
catches it, returns the apologetic string `errorReply e`, and that string is
persisted as the assistant message of the turn while the user message logged
before dispatch remains logged (the active conversation gains exactly the
user message and then the error string, with no rollback). -/
theorem C3_handler_error_caught (e input : Str) (st : StoreState)
    (hc : ConvIdsOk st)
    (hi : determineIntent (lowerL input) = Intent.complete)
    (l : List Todo) (t : Todo) (ht : st.todos = l ++ [t]) :
    (processNaturalLanguageTodoCommand (failToggleEnv e) input st).1 =
      Except.ok (errorReply e) ∧
    activeMsgs (processNaturalLanguageTodoCommand (failToggleEnv e) input st).2 =
      activeMsgs st ++ [⟨Role.user, input⟩, ⟨Role.assistant, errorReply e⟩] := by
  have hrun : ∀ (cid : Nat) (stt : StoreState), stt.todos = st.todos →
      stt.aiReply = st.aiReply →
      runHandler (failToggleEnv e) (determineIntent (lowerL input)) input cid stt =
        (Except.error e, { stt with todos := st.todos }) := by
    intro cid stt htd _
    rw [hi]
    simp only [runHandler, handleCompleteTodo, extractTodoId]
    have hlt : (failToggleEnv e).listTodos = specListTodos := rfl
    rw [hlt]
    simp only [specListTodos, todoMatchesFilter_none, List.filter_true, htd, ht,
      List.reverse_append, List.reverse_cons, List.reverse_nil, List.nil_append,
      List.singleton_append, List.take_succ_cons, List.take_zero]
    have htg : (failToggleEnv e).toggleTodo = fun _ s => (Except.error e, s) := rfl
    simp only [htg]
    have h2 : stt.todos = l ++ [t] := htd.trans ht
    rw [← h2]
  obtain ⟨h1, _, _, _, h5⟩ := processNL_outcome (failToggleEnv e) rfl rfl rfl
    input st hc (Except.error e) st.todos hrun
  exact ⟨h1, h5⟩

/-- Concrete store state for the C3 witness: one conversation, one pending
todo, an AI model that always answers the empty string. -/
def w3st : StoreState :=
  ⟨[⟨0, []⟩], [⟨1, "milk".toList, [], false⟩], 2, fun _ _ => []⟩

/-- C3 witness: the theorem applied at "finish it" (a Complete input) and a
store whose toggle fails with detail "boom". -/
theorem C3_handler_error_caught_witness :
    (processNaturalLanguageTodoCommand (failToggleEnv "boom".toList)
        "finish it".toList w3st).1 =
      Except.ok (errorReply "boom".toList) ∧
    activeMsgs (processNaturalLanguageTodoCommand (failToggleEnv "boom".toList)
        "finish it".toList w3st).2 =
      activeMsgs w3st ++ [⟨Role.user, "finish it".toList⟩,
        ⟨Role.assistant, errorReply "boom".toList⟩] :=
  C3_handler_error_caught "boom".toList "finish it".toList w3st (by decide)
    (by decide) [] ⟨1, "milk".toList, [], false⟩ rfl

/-- C9 (spec-modelled stores): a Delete-intent input from a user with zero
todos returns the fixed guidance message and changes no todo state; and the
store's delete operation is never invoked — under `probeDeleteEnv`, whose
delete always raises, the same fixed message (not the apologetic error
string) still comes back. -/
theorem C9_delete_no_todos (e input : Str) (st : StoreState)
    (hc : ConvIdsOk st)
    (hi : determineIntent (lowerL input) = Intent.delete)
    (h0 : st.todos = []) :
    (processNaturalLanguageTodoCommand (probeDeleteEnv e) input st).1 =
      Except.ok "I couldn't find a specific todo to delete. Please specify which todo you want to delete.".toList ∧
    (processNaturalLanguageTodoCommand (probeDeleteEnv e) input st).2.todos = [] ∧
    (processNaturalLanguageTodoCommand specEnv input st).1 =
      Except.ok "I couldn't find a specific todo to delete. Please specify which todo you want to delete.".toList := by
  have hrun : ∀ (env : Env), env.listTodos = specListTodos →
      ∀ (cid : Nat) (stt : StoreState), stt.todos = st.todos →
      stt.aiReply = st.aiReply →
      runHandler env (determineIntent (lowerL input)) input cid stt =
        (Except.ok "I couldn't find a specific todo to delete. Please specify which todo you want to delete.".toList,
         { stt with todos := st.todos }) := by
    intro env hlt cid stt htd _
    rw [hi]
    simp only [runHandler, handleDeleteTodo, extractTodoId, hlt]
    simp only [specListTodos, todoMatchesFilter_none, List.filter_true, htd, h0,
      List.reverse_nil, List.take_nil]
    have h2 : stt.todos = ([] : List Todo) := htd.trans h0
    rw [← h2]
  obtain ⟨p1, p2, _, _, _⟩ := processNL_outcome (probeDeleteEnv e) rfl rfl rfl
    input st hc _ st.todos (hrun (probeDeleteEnv e) rfl)
  obtain ⟨q1, _, _, _, _⟩ := processNL_outcome specEnv rfl rfl rfl
    input st hc _ st.todos (hrun specEnv rfl)
  exact ⟨p1, by rw [p2, h0], q1⟩

/-- Concrete store state for the C9 witness: one conversation, no todos. -/
def w9st : StoreState := ⟨[⟨0, []⟩], [], 1, fun _ _ => []⟩

/-- C9 witness: the theorem applied at "delete it" and an empty todo list. -/
theorem C9_delete_no_todos_witness :
    (processNaturalLanguageTodoCommand (probeDeleteEnv "boom".toList)
        "delete it".toList w9st).1 =
      Except.ok "I couldn't find a specific todo to delete. Please specify which todo you want to delete.".toList ∧
    (processNaturalLanguageTodoCommand (probeDeleteEnv "boom".toList)
        "delete it".toList w9st).2.todos = [] ∧
    (processNaturalLanguageTodoCommand specEnv "delete it".toList w9st).1 =
      Except.ok "I couldn't find a specific todo to delete. Please specify which todo you want to delete.".toList :=
  C9_delete_no_todos "boom".toList "delete it".toList w9st (by decide) (by decide) rfl


/-- C5's amended behavior, proved below: the history handed to the AI model
for an Other-intent input is the last 10 messages of the active conversation
AFTER the current user input has been logged — so it includes that input as
its final entry; the input is additionally sent as the live turn, and the
model's text is returned verbatim. -/
theorem C5_general_query_history (input : Str) (st : StoreState)
    (hc : ConvIdsOk st)
    (hi : determineIntent (lowerL input) = Intent.other) :
    (processNaturalLanguageTodoCommand specEnv input st).1 =
      Except.ok (st.aiReply
        (lastN 10 (activeMsgs st ++ [⟨Role.user, input⟩])) input) := by
  rcases List.eq_nil_or_concat st.convs with h | ⟨l, c, h⟩
  · have hgq : runHandler specEnv (determineIntent (lowerL input)) input st.nextId
        { st with convs := [Conv.mk st.nextId [Msg.mk Role.user input]],
                  nextId := st.nextId + 1 } =
        (Except.ok (st.aiReply (lastN 10 [Msg.mk Role.user input]) input),
         { st with convs := [Conv.mk st.nextId [Msg.mk Role.user input]],
                   nextId := st.nextId + 1 }) := by
      rw [hi]
      simp only [runHandler]
      exact handleGeneralQuery_spec input st.nextId _
        (Conv.mk st.nextId [Msg.mk Role.user input]) (by simp [findConv])
    have hstep := processNL_step_nil specEnv rfl rfl rfl input st h _ _ hgq
    rw [hstep]
    simp [activeMsgs, h, respOf]
  · rw [List.concat_eq_append] at h
    have hc2 : ((l ++ [c]).map Conv.id).Nodup := by
      have hc1 : (st.convs.map Conv.id).Nodup := hc
      rwa [h] at hc1
    have hid := nodup_concat_not_mem hc2
    have hfind : findConv c.id
        (l ++ [{ c with msgs := c.msgs ++ [Msg.mk Role.user input] }]) =
        some { c with msgs := c.msgs ++ [Msg.mk Role.user input] } :=
      findConv_concat l { c with msgs := c.msgs ++ [Msg.mk Role.user input] } hid
    have hgq : runHandler specEnv (determineIntent (lowerL input)) input c.id
        { st with convs := l ++ [{ c with msgs := c.msgs ++ [Msg.mk Role.user input] }] } =
        (Except.ok (st.aiReply (lastN 10 (c.msgs ++ [Msg.mk Role.user input])) input),
         { st with convs := l ++ [{ c with msgs := c.msgs ++ [Msg.mk Role.user input] }] }) := by
      rw [hi]
      simp only [runHandler]
      exact handleGeneralQuery_spec input c.id _
        { c with msgs := c.msgs ++ [Msg.mk Role.user input] } hfind
    have hstep := processNL_step_concat specEnv rfl rfl input st l c h hid _ _ hgq
    rw [hstep]
    simp [activeMsgs, h, List.getLast?_concat, respOf]

/-- Concrete store state for the C5 witness: one conversation with one
assistant message, an AI model that answers "ok". -/
def w5st : StoreState :=
  ⟨[⟨0, [⟨Role.assistant, "hi there".toList⟩]⟩], [], 1, fun _ _ => "ok".toList⟩

/-- C5 witness: the amended theorem applied at the Other-intent input
"hello?" and `w5st`. -/
theorem C5_general_query_history_witness :
    (processNaturalLanguageTodoCommand specEnv "hello?".toList w5st).1 =
      Except.ok (w5st.aiReply
        (lastN 10 (activeMsgs w5st ++ [⟨Role.user, "hello?".toList⟩])) "hello?".toList) :=
  C5_general_query_history "hello?".toList w5st (by decide) (by decide)

/-- An AI model that answers "in" exactly when the live input already occurs
as a user message inside the history it was handed, and "out" otherwise:
it makes the history's contents observable in the response. -/
def canaryAi : List Msg → Str → Str := fun hist live =>
  if hist.contains (Msg.mk Role.user live) then "in".toList else "out".toList

/-- Concrete store state for the C5 counterexample: one empty conversation
and the canary model. -/
def cexSt : StoreState := ⟨[⟨0, []⟩], [], 1, canaryAi⟩

/-- C5 counterexample: on the Other-intent input "hello?" the dispatcher's
general-query path answers "in" — the canary saw the just-logged current
user input inside the history portion — while on the history the claim
describes (the last 10 messages with the just-logged input excluded) the
canary answers "out". So the just-logged input is NOT excluded from the
history sent to the model. -/
theorem C5_counterexample :
    (processNaturalLanguageTodoCommand specEnv "hello?".toList cexSt).1 =
      Except.ok "in".toList ∧
    canaryAi (lastN 10 (activeMsgs cexSt)) "hello?".toList = "out".toList :=
  ⟨rfl, rfl⟩


/-- The List handler's completion filter, written from the claim's words:
completed=false when the lowercased input contains "pending" or
"incomplete", completed=true when it contains "completed" or "done",
otherwise no filter. -/
def listFilterRef (input : Str) : Option Bool :=
  if containsSub "pending".toList (lowerL input) ||
      containsSub "incomplete".toList (lowerL input) then some false
  else if containsSub "completed".toList (lowerL input) ||
      containsSub "done".toList (lowerL input) then some true
  else none

/-- The List handler's response, written from the claim's words: fetch at
most 20 todos under the filter (newest first); when empty, one of the three
fixed messages by filter; when non-empty, a newline-bulleted list of todo
titles only (after the fixed header), with no ids or descriptions. -/
def listResponseRef (input : Str) (todos : List Todo) : Str :=
  let f := listFilterRef input
  let ts := ((todos.filter (todoMatchesFilter f)).reverse).take 20
  if ts.isEmpty then
    match f with
    | some false => "You don't have any pending todos right now.".toList
    | some true => "You don't have any completed todos right now.".toList
    | none => "You don't have any todos right now.".toList
  else
    let todoList := List.intercalate "\n".toList (ts.map fun t => "- ".toList ++ t.title)
    match f with
    | some false => "Here are your pending todos:\n".toList ++ todoList
    | some true => "Here are your completed todos:\n".toList ++ todoList
    | none => "Here are your todos:\n".toList ++ todoList

/-- C6 (spec-modelled stores): every List-intent input produces exactly the
reference response `listResponseRef` — filter chosen by scanning the
lowercased input, at most 20 todos fetched, the three exact empty-case
messages, titles-only bullets otherwise — and changes no todo state; the
exact message strings are also evaluated at concrete inputs. -/
theorem C6_list_todos (input : Str) (st : StoreState)
    (hc : ConvIdsOk st)
    (hi : determineIntent (lowerL input) = Intent.list) :
    ((processNaturalLanguageTodoCommand specEnv input st).1 =
       Except.ok (listResponseRef input st.todos) ∧
     (processNaturalLanguageTodoCommand specEnv input st).2.todos = st.todos) ∧
    (listResponseRef "list pending".toList [] =
       "You don't have any pending todos right now.".toList ∧
     listResponseRef "list completed".toList [] =
       "You don't have any completed todos right now.".toList ∧
     listResponseRef "list stuff".toList [] =
       "You don't have any todos right now.".toList ∧
     listResponseRef "show all".toList
         [⟨1, "a".toList, [], false⟩, ⟨2, "b".toList, [], false⟩] =
       "Here are your todos:\n- b\n- a".toList) := by
  refine ⟨?_, by decide, by decide, by decide, by decide⟩
  have hrun : ∀ (cid : Nat) (stt : StoreState), stt.todos = st.todos →
      stt.aiReply = st.aiReply →
      runHandler specEnv (determineIntent (lowerL input)) input cid stt =
        (Except.ok (listResponseRef input st.todos), { stt with todos := st.todos }) := by
    intro cid stt htd _
    rw [hi, ← htd]
    simp only [runHandler, handleListTodos, listResponseRef, listFilterRef]
    have hlt : specEnv.listTodos = specListTodos := rfl
    simp only [hlt, specListTodos]
    repeat' split
    all_goals rfl
  obtain ⟨h1, h2, _, _, _⟩ := processNL_outcome specEnv rfl rfl rfl input st hc
    (Except.ok (listResponseRef input st.todos)) st.todos hrun
  exact ⟨h1, h2⟩

/-- Concrete store state for the C6 witness: one conversation, one pending
and one completed todo. -/
def w6st : StoreState :=
  ⟨[⟨0, []⟩], [⟨1, "wash car".toList, [], false⟩, ⟨2, "pay rent".toList, [], true⟩],
   3, fun _ _ => []⟩

/-- C6 witness: the theorem applied at the List-intent input
"show pending tasks" and `w6st`. -/
theorem C6_list_todos_witness :
    (((processNaturalLanguageTodoCommand specEnv "show pending tasks".toList w6st).1 =
       Except.ok (listResponseRef "show pending tasks".toList w6st.todos) ∧
     (processNaturalLanguageTodoCommand specEnv "show pending tasks".toList w6st).2.todos =
       w6st.todos) ∧
    (listResponseRef "list pending".toList [] =
       "You don't have any pending todos right now.".toList ∧
     listResponseRef "list completed".toList [] =
       "You don't have any completed todos right now.".toList ∧
     listResponseRef "list stuff".toList [] =
       "You don't have any todos right now.".toList ∧
     listResponseRef "show all".toList
         [⟨1, "a".toList, [], false⟩, ⟨2, "b".toList, [], false⟩] =
       "Here are your todos:\n- b\n- a".toList)) ∧
    listResponseRef "show pending tasks".toList w6st.todos =
      "Here are your pending todos:\n- wash car".toList :=
  ⟨C6_list_todos "show pending tasks".toList w6st (by decide) (by decide), by decide⟩


/-- C7 (spec-modelled stores): for a user with at least one todo whose most
recent todo is incomplete, a Complete-intent call toggles that todo to
completed and reports "completed"; a second Complete-intent call toggles it
back and reports "marked as incomplete", restoring the original todo state
exactly. -/
theorem C7_complete_toggle (in1 in2 : Str) (st : StoreState)
    (hc : ConvIdsOk st)
    (h1 : determineIntent (lowerL in1) = Intent.complete)
    (h2 : determineIntent (lowerL in2) = Intent.complete)
    (l : List Todo) (t : Todo) (ht : st.todos = l ++ [t])
    (hid : t.id ∉ l.map Todo.id)
    (hinc : t.is_completed = false) :
    (processNaturalLanguageTodoCommand specEnv in1 st).1 =
      Except.ok ("I've marked '".toList ++ t.title ++ "' as ".toList ++
        "completed".toList ++ ".".toList) ∧
    (processNaturalLanguageTodoCommand specEnv in1 st).2.todos =
      l ++ [{ t with is_completed := true }] ∧
    (processNaturalLanguageTodoCommand specEnv in2
        (processNaturalLanguageTodoCommand specEnv in1 st).2).1 =
      Except.ok ("I've marked '".toList ++ t.title ++ "' as ".toList ++
        "marked as incomplete".toList ++ ".".toList) ∧
    (processNaturalLanguageTodoCommand specEnv in2
        (processNaturalLanguageTodoCommand specEnv in1 st).2).2.todos = st.todos := by
  have hteq : ({ t with is_completed := false } : Todo) = t := by
    obtain ⟨a, b, d, cf⟩ := t
    simp only at hinc
    rw [hinc]
  have hrun1 : ∀ (cid : Nat) (stt : StoreState), stt.todos = st.todos →
      stt.aiReply = st.aiReply →
      runHandler specEnv (determineIntent (lowerL in1)) in1 cid stt =
        (Except.ok ("I've marked '".toList ++ t.title ++ "' as ".toList ++
           "completed".toList ++ ".".toList),
         { stt with todos := l ++ [{ t with is_completed := true }] }) := by
    intro cid stt htd _
    rw [h1]
    simp only [runHandler, handleCompleteTodo, extractTodoId]
    have hlt : specEnv.listTodos = specListTodos := rfl
    have htg : specEnv.toggleTodo = specToggleTodo := rfl
    have htd2 : stt.todos = l ++ [t] := htd.trans ht
    simp only [hlt, specListTodos, todoMatchesFilter_none, List.filter_true, htd2,
      List.reverse_append, List.reverse_cons, List.reverse_nil, List.nil_append,
      List.singleton_append, List.take_succ_cons, List.take_zero, htg,
      specToggleTodo, findTodo_concat l t hid, toggleInList_concat l t hid,
      hinc, Bool.not_false]
    simp [List.append_assoc]
  obtain ⟨p1, p2, _, p4, _⟩ := processNL_outcome specEnv rfl rfl rfl in1 st hc
    (Except.ok ("I've marked '".toList ++ t.title ++ "' as ".toList ++
      "completed".toList ++ ".".toList))
    (l ++ [{ t with is_completed := true }]) hrun1
  have hrun2 : ∀ (cid : Nat) (stt : StoreState),
      stt.todos = (processNaturalLanguageTodoCommand specEnv in1 st).2.todos →
      stt.aiReply = (processNaturalLanguageTodoCommand specEnv in1 st).2.aiReply →
      runHandler specEnv (determineIntent (lowerL in2)) in2 cid stt =
        (Except.ok ("I've marked '".toList ++ t.title ++ "' as ".toList ++
           "marked as incomplete".toList ++ ".".toList),
         { stt with todos := l ++ [t] }) := by
    intro cid stt htd _
    rw [h2]
    simp only [runHandler, handleCompleteTodo, extractTodoId]
    have hlt : specEnv.listTodos = specListTodos := rfl
    have htg : specEnv.toggleTodo = specToggleTodo := rfl
    have htd2 : stt.todos = l ++ [{ t with is_completed := true }] := htd.trans p2
    simp only [hlt, specListTodos, todoMatchesFilter_none, List.filter_true, htd2,
      List.reverse_append, List.reverse_cons, List.reverse_nil, List.nil_append,
      List.singleton_append, List.take_succ_cons, List.take_zero, htg,
      specToggleTodo,
      findTodo_concat l { t with is_completed := true } hid,
      toggleInList_concat l { t with is_completed := true } hid,
      Bool.not_true, hteq]
    simp [List.append_assoc, hinc]
  obtain ⟨q1, q2, _, _, _⟩ := processNL_outcome specEnv rfl rfl rfl in2
    (processNaturalLanguageTodoCommand specEnv in1 st).2 p4
    (Except.ok ("I've marked '".toList ++ t.title ++ "' as ".toList ++
      "marked as incomplete".toList ++ ".".toList))
    (l ++ [t]) hrun2
  exact ⟨p1, p2, q1, q2.trans ht.symm⟩

/-- Concrete store state for the C7 witness: one conversation, one incomplete
todo. -/
def w7st : StoreState :=
  ⟨[⟨0, []⟩], [⟨1, "milk run".toList, [], false⟩], 2, fun _ _ => []⟩

/-- C7 witness: the theorem applied twice at the Complete-intent input
"finish that" and `w7st`. -/
theorem C7_complete_toggle_witness :
    (processNaturalLanguageTodoCommand specEnv "finish that".toList w7st).1 =
      Except.ok ("I've marked '".toList ++ "milk run".toList ++ "' as ".toList ++
        "completed".toList ++ ".".toList) ∧
    (processNaturalLanguageTodoCommand specEnv "finish that".toList w7st).2.todos =
      [] ++ [{ (⟨1, "milk run".toList, [], false⟩ : Todo) with is_completed := true }] ∧
    (processNaturalLanguageTodoCommand specEnv "finish that".toList
        (processNaturalLanguageTodoCommand specEnv "finish that".toList w7st).2).1 =
      Except.ok ("I've marked '".toList ++ "milk run".toList ++ "' as ".toList ++
        "marked as incomplete".toList ++ ".".toList) ∧
    (processNaturalLanguageTodoCommand specEnv "finish that".toList
        (processNaturalLanguageTodoCommand specEnv "finish that".toList w7st).2).2.todos =
      w7st.todos :=
  C7_complete_toggle "finish that".toList "finish that".toList w7st (by decide)
    (by decide) (by decide) [] ⟨1, "milk run".toList, [], false⟩ rfl (by decide) rfl


/-- The Update handler's new-title derivation, written from the claim's
words: remove the literal substrings "update", "change" and "modify" from
the RAW input — no lowercasing first, so case-sensitively — in one pass in
that order, then strip. -/
def updateTitleRef (input : Str) : Str :=
  stripL (replaceAll "modify".toList (replaceAll "change".toList
    (replaceAll "update".toList input)))

/-- C8 (spec-modelled stores): an Update-intent input targets the user's most
recent todo via a 1-item page; with no todos the fixed no-todos message comes
back and nothing changes; else the new title is `updateTitleRef` of the raw
input (case-sensitive removal, no lowercasing) — if it is empty the handler
asks the user to specify and changes nothing, otherwise the most recent
todo's title becomes that remainder and the response reports it. -/
theorem C8_update_todo (input : Str) (st : StoreState)
    (hc : ConvIdsOk st)
    (hi : determineIntent (lowerL input) = Intent.update) :
    (st.todos = [] →
       (processNaturalLanguageTodoCommand specEnv input st).1 =
         Except.ok "You don't have any todos to update.".toList ∧
       (processNaturalLanguageTodoCommand specEnv input st).2.todos = st.todos) ∧
    (∀ (l : List Todo) (t : Todo), st.todos = l ++ [t] → t.id ∉ l.map Todo.id →
       (updateTitleRef input = [] →
          (processNaturalLanguageTodoCommand specEnv input st).1 =
            Except.ok "Please specify what you'd like to change the todo to.".toList ∧
          (processNaturalLanguageTodoCommand specEnv input st).2.todos = st.todos) ∧
       (updateTitleRef input ≠ [] →
          (processNaturalLanguageTodoCommand specEnv input st).1 =
            Except.ok ("I've updated the todo to '".toList ++ updateTitleRef input ++
              "'.".toList) ∧
          (processNaturalLanguageTodoCommand specEnv input st).2.todos =
            l ++ [{ t with title := updateTitleRef input }])) := by
  have hlt : specEnv.listTodos = specListTodos := rfl
  have hut : specEnv.updateTodoTitle = specUpdateTodo := rfl
  have href : stripL (replaceAll "modify".toList (replaceAll "change".toList
      (replaceAll "update".toList input))) = updateTitleRef input := rfl
  constructor
  · intro h0
    have hrun : ∀ (cid : Nat) (stt : StoreState), stt.todos = st.todos →
        stt.aiReply = st.aiReply →
        runHandler specEnv (determineIntent (lowerL input)) input cid stt =
          (Except.ok "You don't have any todos to update.".toList,
           { stt with todos := st.todos }) := by
      intro cid stt htd _
      rw [hi]
      simp only [runHandler, handleUpdateTodo, hlt]
      simp only [specListTodos, todoMatchesFilter_none, List.filter_true, htd, h0,
        List.reverse_nil, List.take_nil]
      have h2 : stt.todos = ([] : List Todo) := htd.trans h0
      rw [← h2]
    obtain ⟨r1, r2, _, _, _⟩ := processNL_outcome specEnv rfl rfl rfl input st hc
      _ st.todos hrun
    exact ⟨r1, r2⟩
  · intro l t ht hid
    constructor
    · intro hemp
      have hrun : ∀ (cid : Nat) (stt : StoreState), stt.todos = st.todos →
          stt.aiReply = st.aiReply →
          runHandler specEnv (determineIntent (lowerL input)) input cid stt =
            (Except.ok "Please specify what you'd like to change the todo to.".toList,
             { stt with todos := st.todos }) := by
        intro cid stt htd _
        rw [hi]
        simp only [runHandler, handleUpdateTodo, hlt]
        have htd2 : stt.todos = l ++ [t] := htd.trans ht
        simp only [specListTodos, todoMatchesFilter_none, List.filter_true, htd2,
          List.reverse_append, List.reverse_cons, List.reverse_nil, List.nil_append,
          List.singleton_append, List.take_succ_cons, List.take_zero,
          href, hemp, List.isEmpty_nil, if_true]
        rw [← htd]
      obtain ⟨r1, r2, _, _, _⟩ := processNL_outcome specEnv rfl rfl rfl input st hc
        _ st.todos hrun
      exact ⟨r1, r2.trans rfl⟩
    · intro hne
      have hie : (updateTitleRef input).isEmpty = false := by
        cases hu : updateTitleRef input with
        | nil => exact absurd hu hne
        | cons a as => rfl
      have hrun : ∀ (cid : Nat) (stt : StoreState), stt.todos = st.todos →
          stt.aiReply = st.aiReply →
          runHandler specEnv (determineIntent (lowerL input)) input cid stt =
            (Except.ok ("I've updated the todo to '".toList ++ updateTitleRef input ++
               "'.".toList),
             { stt with todos := l ++ [{ t with title := updateTitleRef input }] }) := by
        intro cid stt htd _
        rw [hi]
        simp only [runHandler, handleUpdateTodo, hlt]
        have htd2 : stt.todos = l ++ [t] := htd.trans ht
        simp only [specListTodos, todoMatchesFilter_none, List.filter_true, htd2,
          List.reverse_append, List.reverse_cons, List.reverse_nil, List.nil_append,
          List.singleton_append, List.take_succ_cons, List.take_zero,
          href, hie, Bool.false_eq_true, if_false, hut, specUpdateTodo,
          findTodo_concat l t hid, setTitleInList_concat l t (updateTitleRef input) hid]
      obtain ⟨r1, r2, _, _, _⟩ := processNL_outcome specEnv rfl rfl rfl input st hc
        _ (l ++ [{ t with title := updateTitleRef input }]) hrun
      exact ⟨r1, r2⟩

/-- Concrete store state for the C8 witness: one conversation, one todo. -/
def w8st : StoreState :=
  ⟨[⟨0, []⟩], [⟨1, "old title".toList, [], false⟩], 2, fun _ _ => []⟩

/-- C8 witness: the theorem applied at "update: buy bread" (Update intent,
case-sensitive stripping leaves ": buy bread") and `w8st`. -/
theorem C8_update_todo_witness :
    ((w8st.todos = [] →
       (processNaturalLanguageTodoCommand specEnv "update: buy bread".toList w8st).1 =
         Except.ok "You don't have any todos to update.".toList ∧
       (processNaturalLanguageTodoCommand specEnv "update: buy bread".toList w8st).2.todos =
         w8st.todos) ∧
    (∀ (l : List Todo) (t : Todo), w8st.todos = l ++ [t] → t.id ∉ l.map Todo.id →
       (updateTitleRef "update: buy bread".toList = [] →
          (processNaturalLanguageTodoCommand specEnv "update: buy bread".toList w8st).1 =
            Except.ok "Please specify what you'd like to change the todo to.".toList ∧
          (processNaturalLanguageTodoCommand specEnv "update: buy bread".toList w8st).2.todos =
            w8st.todos) ∧
       (updateTitleRef "update: buy bread".toList ≠ [] →
          (processNaturalLanguageTodoCommand specEnv "update: buy bread".toList w8st).1 =
            Except.ok ("I've updated the todo to '".toList ++
              updateTitleRef "update: buy bread".toList ++ "'.".toList) ∧
          (processNaturalLanguageTodoCommand specEnv "update: buy bread".toList w8st).2.todos =
            l ++ [{ t with title := updateTitleRef "update: buy bread".toList }]))) ∧
    updateTitleRef "update: buy bread".toList = ": buy bread".toList :=
  ⟨C8_update_todo "update: buy bread".toList w8st (by decide) (by decide), by decide⟩


/-- `specEnv`, except that the conversation lookup raises with detail `e`. -/
def failListConvsEnv (e : Str) : Env :=
  { specEnv with listConvs := fun st => (Except.error e, st) }

/-- `specEnv`, except that conversation creation raises with detail `e`. -/
def failCreateConvEnv (e : Str) : Env :=
  { specEnv with createConv := fun st => (Except.error e, st) }

/-- `specEnv`, except that appending the user-role message raises with
detail `e` (the assistant-role append still behaves as the spec store). -/
def failUserMsgEnv (e : Str) : Env :=
  { specEnv with appendMsg := fun cid r content st =>
      match r with
      | Role.user => (Except.error e, st)
      | Role.assistant => specAppendMsg cid r content st }

/-- `specEnv`, except that appending the assistant-role message raises with
detail `e` (the user-role append still behaves as the spec store). -/
def failAssistantMsgEnv (e : Str) : Env :=
  { specEnv with appendMsg := fun cid r content st =>
      match r with
      | Role.user => specAppendMsg cid r content st
      | Role.assistant => (Except.error e, st) }

/-- C10 (spec-modelled stores): the apologetic-string conversion covers only
exceptions raised inside the per-intent handlers — an exception from the
conversation lookup, from conversation creation, from logging the user
message before dispatch, or from logging the assistant message after
dispatch propagates uncaught (the call's result is `Except.error e`, never
the `Except.ok` of a user-facing string). -/
theorem C10_log_errors_propagate (e input : Str) (st : StoreState) :
    (processNaturalLanguageTodoCommand (failListConvsEnv e) input st).1 =
      Except.error e ∧
    (st.convs = [] →
      (processNaturalLanguageTodoCommand (failCreateConvEnv e) input st).1 =
        Except.error e) ∧
    (processNaturalLanguageTodoCommand (failUserMsgEnv e) input st).1 =
      Except.error e ∧
    (processNaturalLanguageTodoCommand (failAssistantMsgEnv e) input st).1 =
      Except.error e := by
  refine ⟨rfl, ?_, ?_, ?_⟩
  · intro h
    have hres : resolveConv (failCreateConvEnv e) st = (Except.error e, st) := by
      simp only [resolveConv]
      have h1 : (failCreateConvEnv e).listConvs = specListConvs := rfl
      simp only [h1, specListConvs, h, List.reverse_nil, List.take_nil, List.map_nil]
      rfl
    simp only [processNaturalLanguageTodoCommand, hres]
  · have hamu : ∀ (cid : Nat) (content : Str) (stt : StoreState),
        (failUserMsgEnv e).appendMsg cid Role.user content stt =
          (Except.error e, stt) := fun _ _ _ => rfl
    rcases List.eq_nil_or_concat st.convs with h | ⟨l, c, h⟩
    · simp only [processNaturalLanguageTodoCommand,
        resolveConv_nil (failUserMsgEnv e) rfl rfl st h, hamu]
    · rw [List.concat_eq_append] at h
      simp only [processNaturalLanguageTodoCommand,
        resolveConv_concat (failUserMsgEnv e) rfl st l c h, hamu]
  · have hama : ∀ (cid : Nat) (content : Str) (stt : StoreState),
        (failAssistantMsgEnv e).appendMsg cid Role.assistant content stt =
          (Except.error e, stt) := fun _ _ _ => rfl
    have hamu : ∀ (cid : Nat) (content : Str) (stt : StoreState),
        (failAssistantMsgEnv e).appendMsg cid Role.user content stt =
          specAppendMsg cid Role.user content stt := fun _ _ _ => rfl
    rcases List.eq_nil_or_concat st.convs with h | ⟨l, c, h⟩
    · simp only [processNaturalLanguageTodoCommand,
        resolveConv_nil (failAssistantMsgEnv e) rfl rfl st h, hamu, specAppendMsg]
      obtain ⟨r, st2, hr, _, _, _⟩ := runHandler_spec_ok (failAssistantMsgEnv e)
        rfl rfl rfl rfl rfl rfl rfl (determineIntent (lowerL input)) input st.nextId
        { st with
          convs := appendToConv st.nextId (Msg.mk Role.user input)
            [Conv.mk st.nextId []]
          nextId := st.nextId + 1 }
      rw [hr]
      simp only [hama]
    · rw [List.concat_eq_append] at h
      simp only [processNaturalLanguageTodoCommand,
        resolveConv_concat (failAssistantMsgEnv e) rfl st l c h, hamu, specAppendMsg]
      obtain ⟨r, st2, hr, _, _, _⟩ := runHandler_spec_ok (failAssistantMsgEnv e)
        rfl rfl rfl rfl rfl rfl rfl (determineIntent (lowerL input)) input c.id
        { st with convs := appendToConv c.id (Msg.mk Role.user input) st.convs }
      rw [hr]
      simp only [hama]


/-- Concrete store state for the C4 witness: no conversations yet (the lazy
creation path), no todos. -/
def w4st : StoreState := ⟨[], [], 0, fun _ _ => "sure".toList⟩

/-- C4 witness: the theorem applied at "add milk" and `w4st`. -/
theorem C4_turn_logging_witness :
    (∃ r, (processNaturalLanguageTodoCommand specEnv "add milk".toList w4st).1 =
        Except.ok r ∧
      (processNaturalLanguageTodoCommand specEnv "add milk".toList w4st).2.convs =
        appendTurn w4st.nextId ⟨Role.user, "add milk".toList⟩ ⟨Role.assistant, r⟩
          w4st.convs) ∧
    (∃ r, (processChat specEnv "add milk".toList w4st).1 = Except.ok r ∧
      (processChat specEnv "add milk".toList w4st).2.convs =
        appendTurn w4st.nextId ⟨Role.user, "add milk".toList⟩ ⟨Role.assistant, r⟩
          w4st.convs) :=
  C4_turn_logging "add milk".toList w4st (by decide)

end AIChat
